import Mathlib

/-!
Verification development for the `vscode-multiroot-manager` VS Code extension.

The development shallowly embeds the core services of the repository:

* `src/services/gitService.ts`  — `GitService` (remote-URL parsing, branch status)
  and `IssueService` (issue creation with rollback, deletion, orphan detection);
* `src/services/stateManager.ts` — `StateManager` (issue persistence, legacy-format
  normalization, replace-by-id save, sort-on-save);
* `src/services/workspaceService.ts` — `WorkspaceService` (workspace descriptor
  generation).

Filesystem paths are modelled as lists of path components (`Path`), so that
`path.join`, `path.basename` and `path.dirname` become list operations.
External effects (git subprocesses, directory listings) are modelled by an
explicit environment of oracles (`GitEnv`), and the mutable world (directories
on disk, the persisted issue list) by an explicit state (`WorldState`)
threaded through the orchestrator functions.  JavaScript string/`undefined`
truthiness (`a || b`) is modelled by `jsOr`/`strTruthy`.
-/

namespace MRM

/-- A filesystem path, as its list of components.  `path.join dir s` appends a
component (JavaScript's `path.join` ignores empty segments), `path.basename`
is the last component, `path.dirname` drops the last component. -/
abbrev Path := List String

/-- Model of Node's `path.join(p, s)` for a single extra segment: empty
segments are ignored, as `path.join` does. -/
def pathJoin (p : Path) (s : String) : Path :=
  if s = "" then p else p ++ [s]

/-- Model of Node's `path.basename`: the last component (empty for the empty
path). -/
def basename (p : Path) : String :=
  p.getLastD ""

/-- Model of Node's `path.dirname`: drop the last component. -/
def dirname (p : Path) : Path :=
  p.dropLast

/-- JavaScript truthiness for an optional string: `undefined` and `""` are
falsy. -/
def strTruthy : Option String → Option String
  | none => none
  | some s => if s = "" then none else some s

/-- JavaScript `a || b` on optional strings: the first truthy operand. -/
def jsOr (a b : Option String) : Option String :=
  (strTruthy a).orElse (fun _ => strTruthy b)

/-- JavaScript `a || b` where `b` is a (string) default. -/
def jsOrD (a : Option String) (b : String) : String :=
  (strTruthy a).getD b

/-- JavaScript truthiness for an optional path (a path-valued string field):
`undefined` and the empty string are falsy. -/
def pathTruthy : Option Path → Option Path
  | none => none
  | some p => if p = [] then none else some p

/-- Model of JavaScript `String.prototype.trim` on a character list: strip
leading and trailing whitespace. -/
def trimChars (cs : List Char) : List Char :=
  ((cs.dropWhile Char.isWhitespace).reverse.dropWhile Char.isWhitespace).reverse

/-! ## Data model (`src/models/types.ts`) -/

/-- Branch-naming configuration (`src/models/types.ts`, `BranchNaming`). -/
structure BranchNaming where
  pattern : String
  separator : String
deriving Repr, DecidableEq

/-- A repository of a project (`src/models/types.ts`, `Repository`).
`default_branch` and `remote` are optional, defaulted at use sites. -/
structure Repository where
  name : String
  path : Path
  default_branch : Option String := none
  remote : Option String := none
deriving Repr, DecidableEq

/-- A project (`src/models/types.ts`, `Project`). -/
structure Project where
  id : String
  name : String
  description : Option String := none
  repositories : List Repository
  branchNaming : Option BranchNaming := none
deriving Repr, DecidableEq

/-- Per-repository state recorded in an issue (`src/models/types.ts`,
`RepoState`). -/
structure RepoState where
  name : String
  branch : String
  worktreePath : Path
  created : Bool
  pushed : Bool
deriving Repr, DecidableEq

/-- An issue record in canonical (extension) shape (`src/models/types.ts`,
`Issue`).  `status` is a string at runtime (the TypeScript union type is
erased); the extension itself only writes `"active"`, `"pr_created"`,
`"merged"`, `"closed"`. -/
structure Issue where
  id : String
  title : Option String := none
  description : Option String := none
  projectId : String
  status : String
  workspaceDir : Path
  repos : List RepoState
  createdAt : String
  updatedAt : String
deriving Repr, DecidableEq

/-- Options of `IssueService.createIssue` (`src/models/types.ts`,
`CreateIssueOptions`). -/
structure CreateIssueOptions where
  projectId : String
  issueId : String
  title : Option String := none
  description : Option String := none
deriving Repr, DecidableEq

/-- Options of `IssueService.deleteIssue` (`src/models/types.ts`,
`DeleteIssueOptions`). -/
structure DeleteIssueOptions where
  deleteBranches : Option Bool := none
  force : Option Bool := none
deriving Repr, DecidableEq

/-! ## Remote URL parsing (`src/services/gitService.ts:131-156`)

`GitService.getOrgFromRemote` matches the (trimmed) remote URL against three
anchored regular expressions, in order:

* `^ssh:\/\/git@[^/]+\/([^/]+)\//`  (SSH URL form),
* `^git@[^:]+:([^/]+)\//`           (SCP-like shorthand),
* `^https?:\/\/[^/]+\/([^/]+)\//`   (HTTP or HTTPS form),

returning the capture group of the first match and throwing if none matches.
Each regex is a literal head followed by greedy nonempty character-class runs
delimited by required literal characters, so matching is equivalent to the
deterministic take-while parsing below. -/

/-- Strip an expected literal head from a character list (the anchored literal
part of a regex); `none` when the input does not start with it. -/
def stripLit : List Char → List Char → Option (List Char)
  | [], cs => some cs
  | _ :: _, [] => none
  | p :: ps, c :: cs => if c = p then stripLit ps cs else none

/-- The character class `[^stop]`: any character other than the delimiter. -/
def notChar (stop : Char) : Char → Bool := fun c => c != stop

/-- Match the regex fragment `[^stop]+stop`: a greedy nonempty run of
characters other than `stop`, followed by the required literal `stop`.
Returns the run and the remainder after the delimiter. -/
def matchSeg (stop : Char) (cs : List Char) : Option (List Char × List Char) :=
  match cs.dropWhile (notChar stop) with
  | [] => none
  | _ :: rest =>
    if (cs.takeWhile (notChar stop)).isEmpty then none
    else some (cs.takeWhile (notChar stop), rest)

/-- Shared tail of the three regexes after the anchored literal:
`[^/| :]+` host run with its delimiter, then the `([^/]+)\//` capture. -/
def matchHostOrg (hostStop : Char) (r : List Char) : Option (List Char) :=
  match matchSeg hostStop r with
  | none => none
  | some (_host, r1) =>
    match matchSeg '/' r1 with
    | none => none
    | some (org, _r2) => some org

/-- The regex `^ssh:\/\/git@[^/]+\/([^/]+)\//` of `gitService.ts:138`,
returning the capture group (the organization). -/
def matchSshUrl (cs : List Char) : Option (List Char) :=
  match stripLit "ssh://git@".data cs with
  | none => none
  | some r => matchHostOrg '/' r

/-- The regex `^git@[^:]+:([^/]+)\//` of `gitService.ts:144`. -/
def matchScp (cs : List Char) : Option (List Char) :=
  match stripLit "git@".data cs with
  | none => none
  | some r => matchHostOrg ':' r

/-- The regex `^https?:\/\/[^/]+\/([^/]+)\//` of `gitService.ts:150` (note:
it accepts both `http://` and `https://`). -/
def matchHttpUrl (cs : List Char) : Option (List Char) :=
  match (stripLit "https://".data cs).orElse (fun _ => stripLit "http://".data cs) with
  | none => none
  | some r => matchHostOrg '/' r

/-- The pattern cascade of `GitService.getOrgFromRemote`
(`gitService.ts:137-155`) on an already-trimmed URL: first SSH URL form,
then SCP form, then HTTP(S) form; `none` models the thrown parse error. -/
def parseOrgChars (cs : List Char) : Option (List Char) :=
  match matchSshUrl cs with
  | some org => some org
  | none =>
    match matchScp cs with
    | some org => some org
    | none => matchHttpUrl cs

/-- String-level wrapper of `parseOrgChars`. -/
def parseOrg (url : String) : Option String :=
  (parseOrgChars url.data).map (fun cs => ⟨cs⟩)

/-! ## Branch status (`src/services/gitService.ts:88-125`)

`GitService.branchExists` and `GitService.getBranchStatus` only observe the
outside world; the observations are supplied by a `GitEnv` oracle.  An oracle
field returning `none` models the underlying git call throwing. -/

/-- Oracle for every external effect the services perform.  Each field models
one kind of git/process call; `none`/`false` results model a thrown error
where the code catches or propagates one. -/
structure GitEnv where
  /-- Output of `git remote get-url <remote>` in `repoPath` (`gitService.ts:134`);
  `none` models the git call throwing. -/
  remoteUrl : Path → String → Option String
  /-- Whether `git.status()` succeeds in `repoPath` (`GitService.isValidRepository`,
  `gitService.ts:161-169`). -/
  statusOk : Path → Bool
  /-- Whether `GitService.createWorktree repoPath worktreePath branch base`
  succeeds (`gitService.ts:13-34`); on success the worktree checkout appears
  on disk at `worktreePath`. -/
  createWorktreeOk : Path → Path → String → String → Bool
  /-- Whether `GitService.removeWorktree repoPath worktreePath` succeeds
  (`gitService.ts:39-44`); on success the checkout disappears from disk. -/
  removeWorktreeOk : Path → Path → Bool
  /-- Result of `git.branchLocal()` in `repoPath`: the list of local branch
  names, or `none` when the call throws (`gitService.ts:91-100`). -/
  branchLocalAll : Path → Option (List String)
  /-- Output of `git ls-remote --heads origin <branch>` (`gitService.ts:117`);
  `none` models the call throwing. -/
  lsRemoteHeads : Path → String → Option String
  /-- Whether `GitService.deleteBranch` succeeds (`gitService.ts:49-54`). -/
  deleteBranchOk : Path → String → Bool

/-- `GitService.branchExists` (`gitService.ts:91-100`): membership of the
branch in `git.branchLocal().all`, `false` when the call throws. -/
def branchExists (env : GitEnv) (repoPath : Path) (branchName : String) : Bool :=
  match env.branchLocalAll repoPath with
  | some all => all.contains branchName
  | none => false

/-- `GitService.getBranchStatus` (`gitService.ts:105-125`): `created` from
`branchExists`; the remote is consulted only when `created`, and `pushed` is
whether the trimmed `ls-remote` output is nonempty, `false` when the remote
query throws. -/
def getBranchStatus (env : GitEnv) (repoPath : Path) (branchName : String) :
    Bool × Bool :=
  let created := branchExists env repoPath branchName
  let pushed :=
    if created then
      match env.lsRemoteHeads repoPath branchName with
      | some out => !(trimChars out.data).isEmpty
      | none => false
    else false
  (created, pushed)

/-! ## State persistence (`src/services/stateManager.ts`)

The persisted file `data/{project}/issues.yaml` holds `{issues: [...]}` where
each raw record may be in the extension's canonical shape or in the legacy
CLI shape.  `RawIssue` is the parsed YAML record (a `none` field is an absent
key); `StateManager.normalizeIssue` maps it onto the canonical `Issue`. -/

/-- A raw per-repository record inside a legacy `repositories` array
(`stateManager.ts:59-65`). -/
structure RawRepo where
  name : Option String := none
  branch : Option String := none
  worktreePath : Option Path := none
  created : Option Bool := none
  pushed : Option Bool := none
deriving Repr, DecidableEq

/-- The legacy nested `workspace` object (`stateManager.ts:52-55`): only its
`path` field is consulted. -/
structure RawWorkspace where
  path : Option Path := none
deriving Repr, DecidableEq

/-- A raw issue record as parsed from `issues.yaml`, covering both the
canonical field names and the legacy/alternate ones
(`stateManager.ts:43-79`). -/
structure RawIssue where
  id : Option String := none
  title : Option String := none
  description : Option String := none
  projectId : Option String := none
  project_id : Option String := none
  status : Option String := none
  workspaceDir : Option Path := none
  workspace : Option RawWorkspace := none
  repositories : Option (List RawRepo) := none
  repos : Option (List RepoState) := none
  createdAt : Option String := none
  created_at : Option String := none
  updatedAt : Option String := none
  updated_at : Option String := none
deriving Repr, DecidableEq

/-- Normalization of one legacy repository record (`stateManager.ts:59-65`):
each field defaults under JavaScript truthiness, and a missing
`worktreePath` defaults to `path.join(workspaceDir, repo.name || '')`. -/
def normalizeRepo (workspaceDir : Path) (r : RawRepo) : RepoState :=
  { name := jsOrD r.name ""
    branch := jsOrD r.branch ""
    worktreePath := (pathTruthy r.worktreePath).getD (pathJoin workspaceDir (jsOrD r.name ""))
    created := r.created.getD false
    pushed := r.pushed.getD false }

/-- `StateManager.normalizeIssue` (`stateManager.ts:43-79`).  Records lacking
a (truthy) id are discarded; `workspaceDir` falls back to
`path.dirname(workspace.path)`; a legacy `repositories` array is mapped
through `normalizeRepo`, otherwise `repos` is taken as-is; timestamps fall
back to the legacy names and then to the current time `now`. -/
def normalizeIssue (now : String) (raw : RawIssue) : Option Issue :=
  match strTruthy raw.id with
  | none => none
  | some id =>
    let workspaceDir : Path :=
      match pathTruthy raw.workspaceDir with
      | some p => p
      | none =>
        match raw.workspace with
        | some w =>
          match pathTruthy w.path with
          | some wp => dirname wp
          | none => []
        | none => []
    some
      { id := id
        title := raw.title
        description := raw.description
        projectId := (jsOr raw.projectId raw.project_id).getD ""
        status := jsOrD raw.status "active"
        workspaceDir := workspaceDir
        repos :=
          match raw.repositories with
          | some rs => rs.map (normalizeRepo workspaceDir)
          | none => raw.repos.getD []
        createdAt := (jsOr raw.createdAt raw.created_at).getD now
        updatedAt := (jsOr raw.updatedAt raw.updated_at).getD now }

/-- `StateManager.loadIssues` on the parsed record list
(`stateManager.ts:17-38`): normalize each raw record and drop the `null`
results. -/
def loadIssuesFrom (now : String) (raws : List RawIssue) : List Issue :=
  raws.filterMap (normalizeIssue now)

/-- Serialization of a canonical `Issue` back to the raw YAML shape
(`StateManager.saveIssuesFile` writes the record with exactly the canonical
field names, `stateManager.ts:155-168`). -/
def toRaw (i : Issue) : RawIssue :=
  { id := some i.id
    title := i.title
    description := i.description
    projectId := some i.projectId
    status := some i.status
    workspaceDir := some i.workspaceDir
    repos := some i.repos
    createdAt := some i.createdAt
    updatedAt := some i.updatedAt }

/-- The sort comparator of `StateManager.saveIssue` (`stateManager.ts:94-96`):
newest first by `new Date(createdAt).getTime()`.  The `Date` parse is
abstracted as `timeOf`. -/
def issueLe (timeOf : String → Int) (a b : Issue) : Bool :=
  decide (timeOf b.createdAt ≤ timeOf a.createdAt)

/-- `StateManager.saveIssue` on the loaded list (`stateManager.ts:84-99`):
drop any record with the same id, append the new record, and sort by
creation time descending. -/
def saveIssueList (timeOf : String → Int) (issues : List Issue) (issue : Issue) :
    List Issue :=
  ((issues.filter (fun i => i.id != issue.id)) ++ [issue]).mergeSort (issueLe timeOf)

/-- `StateManager.deleteIssue` on the loaded list (`stateManager.ts:104-108`):
filter out the id and write back (no re-sort). -/
def deleteIssueList (issues : List Issue) (issueId : String) : List Issue :=
  issues.filter (fun i => i.id != issueId)

/-- `StateManager.getIssue` (`stateManager.ts:113-116`): first record with the
given id. -/
def getIssueFrom (issues : List Issue) (issueId : String) : Option Issue :=
  issues.find? (fun i => i.id == issueId)

/-- The persisted list is sorted by creation time, newest first (with respect
to the abstracted `Date` parse `timeOf`). -/
def SortedByCreatedDesc (timeOf : String → Int) (l : List Issue) : Prop :=
  l.Pairwise (fun a b => issueLe timeOf a b = true)

instance (timeOf : String → Int) (l : List Issue) :
    Decidable (SortedByCreatedDesc timeOf l) :=
  inferInstanceAs (Decidable (l.Pairwise (fun a b => issueLe timeOf a b = true)))

/-! ## Workspace descriptor generation (`src/services/workspaceService.ts`) -/

/-- One folder entry of a `.code-workspace` descriptor
(`workspaceService.ts:9-12`). -/
structure WorkspaceFolder where
  path : String
  name : Option String := none
deriving Repr, DecidableEq

/-- The `.code-workspace` descriptor content (`workspaceService.ts:14-17`);
`settings` is the constant `files.exclude` map of `workspaceService.ts:58-62`,
modelled as the list of its entries. -/
structure WorkspaceFileModel where
  folders : List WorkspaceFolder
  settings : List (String × Bool)
deriving Repr, DecidableEq

/-- The fixed human-readable label of the workspace-root folder entry
(`workspaceService.ts:35`). -/
def workspaceRootLabel : String := "📁 Workspace Root"

/-- The folder list built by `WorkspaceService.generateWorkspace`
(`workspaceService.ts:32-53`): the root entry at `"."`, then one entry per
repository in list order; the path/name use `{org}/{name}` when the org map
has a truthy entry for the repository, else just `{name}`. -/
def generateWorkspaceFolders (repos : List Repository)
    (repoOrgs : String → Option String) : List WorkspaceFolder :=
  ⟨".", some workspaceRootLabel⟩ ::
    repos.map (fun repo =>
      match strTruthy (repoOrgs repo.name) with
      | some org =>
        ⟨"./" ++ org ++ "/" ++ repo.name, some (org ++ "/" ++ repo.name)⟩
      | none => ⟨"./" ++ repo.name, some repo.name⟩)

/-- `WorkspaceService.generateWorkspace` (`workspaceService.ts:23-73`) as a
function of the pre-existing descriptor content: `fs.writeFileSync`
overwrites, so the `existing` content is ignored entirely. -/
def generateWorkspace (existing : Option WorkspaceFileModel)
    (repos : List Repository) (repoOrgs : String → Option String) :
    WorkspaceFileModel :=
  match existing with
  | _ =>
    { folders := generateWorkspaceFolders repos repoOrgs
      settings := [("**/.git", true)] }

/-! ## Issue orchestration (`IssueService`, `src/services/gitService.ts:188-439`)

The orchestrator is embedded as explicit state passing over `WorldState`:
`dirs` is the set of directories present on disk (a worktree checkout or an
issue directory is one entry; removing a directory removes everything under
it, as `fs.rmSync(_, {recursive: true})` does), and `issues` is the content
of the project's persisted issue list.  Every git-touching call is recorded
in a `GitOp` trace.  File artifacts written inside the issue directory (the
workspace descriptor and the context note, handled by `generateWorkspace`
above) live under the issue directory and are subsumed by its recursive
removal. -/

/-- One git-touching external call made by the orchestrator. -/
inductive GitOp where
  | getOrg (repoPath : Path) (remote : String)
  | status (repoPath : Path)
  | worktreeAdd (repoPath worktreePath : Path)
  | worktreeRemove (repoPath worktreePath : Path)
  | branchList (repoPath : Path)
  | lsRemote (repoPath : Path) (branch : String)
  | branchDelete (repoPath : Path) (branch : String)
deriving Repr, DecidableEq

/-- The errors the orchestrator throws (`gitService.ts:209,247,322,339,345`
and the two calls that rethrow git/parse failures). -/
inductive OpError where
  | projectNotFound (projectId : String)
  | issueNotFound (issueId : String)
  | remoteParseError (repoPath : Path) (remote : String)
  | invalidRepository (repoPath : Path)
  | gitOperationError (repoPath worktreePath : Path)
deriving Repr, DecidableEq

/-- The mutable world visible to the orchestrator: directories on disk and
the persisted issue list of the project under consideration. -/
structure WorldState where
  dirs : List Path
  issues : List Issue
deriving Repr, DecidableEq

/-- Create a directory if absent (`fs.mkdirSync` guarded by
`fs.existsSync`). -/
def insertDir (dirs : List Path) (d : Path) : List Path :=
  if dirs.contains d then dirs else dirs ++ [d]

/-- Remove a directory and everything under it
(`fs.rmSync(_, {recursive: true, force: true})`). -/
def removeUnder (base : Path) (dirs : List Path) : List Path :=
  dirs.filter (fun d => !(base.isPrefixOf d))

/-- `GitService.getOrgFromRemote` (`gitService.ts:131-156`): read the remote
URL, trim it, and run the pattern cascade; `none` models either the git call
or the parse throwing. -/
def getOrgFromRemote (env : GitEnv) (repoPath : Path) (remote : String) :
    Option String :=
  match env.remoteUrl repoPath remote with
  | none => none
  | some u => (parseOrgChars (trimChars u.data)).map (fun cs => ⟨cs⟩)

/-- The ops emitted by one `getBranchStatus` call: the local branch listing,
plus the remote query when the branch exists locally. -/
def branchStatusOps (env : GitEnv) (repoPath : Path) (branch : String) :
    List GitOp :=
  [.branchList repoPath] ++
    (if branchExists env repoPath branch then [.lsRemote repoPath branch] else [])

/-- The environment of one `IssueService` instance: the git oracle plus the
`ConfigManager` facts it consults.  `genBranchName` stands for
`ConfigManager.generateBranchName` (`src/config/configManager.ts`), `timeOf`
for the `Date` parse used by the state sort, and `now` for
`new Date().toISOString()`. -/
structure Ctx where
  env : GitEnv
  loadProject : String → Option Project
  workspaceRoot : Path
  genBranchName : String → Option BranchNaming → String
  timeOf : String → Int
  now : String

/-- Result of the per-repository creation loop of `createIssue`
(`gitService.ts:238-270`): the repo states (or the thrown error), the world
after the loop, the accumulated `createdWorktrees` list, and the op trace. -/
structure LoopResult where
  result : Except OpError (List RepoState)
  state : WorldState
  created : List Path
  ops : List GitOp

/-- The per-repository loop of `createIssue` (`gitService.ts:238-270`), in
the project's declared order: resolve the org from the remote, compute the
worktree path `{issueDir}/{org}/{repoName}`, validate the repository, create
the worktree (recording it in `created`), and query branch status.  The
first failure aborts the loop with the corresponding error. -/
def createLoop (env : GitEnv) (issueDir : Path) (branch : String) :
    List Repository → WorldState → List Path → LoopResult
  | [], s, created => ⟨.ok [], s, created, []⟩
  | repo :: rest, s, created =>
    let remote := jsOrD repo.remote "origin"
    match getOrgFromRemote env repo.path remote with
    | none =>
      ⟨.error (.remoteParseError repo.path remote), s, created,
        [.getOrg repo.path remote]⟩
    | some org =>
      let wt := pathJoin (pathJoin issueDir org) repo.name
      if env.statusOk repo.path then
        if env.createWorktreeOk repo.path wt branch (jsOrD repo.default_branch "main") then
          let s1 : WorldState := { s with dirs := insertDir s.dirs wt }
          let st := getBranchStatus env repo.path branch
          let stepOps :=
            [.getOrg repo.path remote, .status repo.path, .worktreeAdd repo.path wt] ++
              branchStatusOps env repo.path branch
          let tail := createLoop env issueDir branch rest s1 (created ++ [wt])
          ⟨tail.result.map (fun sts => ⟨repo.name, branch, wt, st.1, st.2⟩ :: sts),
            tail.state, tail.created, stepOps ++ tail.ops⟩
        else
          ⟨.error (.gitOperationError repo.path wt), s, created,
            [.getOrg repo.path remote, .status repo.path, .worktreeAdd repo.path wt]⟩
      else
        ⟨.error (.invalidRepository repo.path), s, created,
          [.getOrg repo.path remote, .status repo.path]⟩

/-- The rollback loop of `createIssue` (`gitService.ts:307-317`): for every
recorded worktree path, look the repository up by the path's basename and
attempt `removeWorktree`; a failed removal is caught and the loop
continues. -/
def rollbackLoop (env : GitEnv) (repositories : List Repository) :
    List Path → WorldState → WorldState × List GitOp
  | [], s => (s, [])
  | wt :: rest, s =>
    match repositories.find? (fun r => r.name == basename wt) with
    | some repo =>
      let step :=
        if env.removeWorktreeOk repo.path wt then
          ({ s with dirs := removeUnder wt s.dirs }, [GitOp.worktreeRemove repo.path wt])
        else (s, [GitOp.worktreeRemove repo.path wt])
      let tail := rollbackLoop env repositories rest step.1
      (tail.1, step.2 ++ tail.2)
    | none => rollbackLoop env repositories rest s

/-- Result of one orchestrator operation: the returned value or thrown
error, the final world, and the git-op trace. -/
structure OpResult (α : Type) where
  result : Except OpError α
  state : WorldState
  ops : List GitOp

/-- `IssueService.createIssue` (`gitService.ts:203-324`): resolve the
project; return an existing record unchanged; otherwise create the issue
directory, run the per-repository loop, and on success persist the new
record via the save-and-sort of `StateManager.saveIssue` — on any loop
failure, roll back every created worktree, remove the issue directory, and
rethrow. -/
def createIssue (ctx : Ctx) (opts : CreateIssueOptions) (s : WorldState) :
    OpResult Issue :=
  match ctx.loadProject opts.projectId with
  | none => ⟨.error (.projectNotFound opts.projectId), s, []⟩
  | some project =>
    match getIssueFrom s.issues opts.issueId with
    | some existing => ⟨.ok existing, s, []⟩
    | none =>
      let issueDir := pathJoin (pathJoin ctx.workspaceRoot opts.projectId) opts.issueId
      let s1 : WorldState := { s with dirs := insertDir s.dirs issueDir }
      let branch := ctx.genBranchName opts.issueId project.branchNaming
      let loop := createLoop ctx.env issueDir branch project.repositories s1 []
      match loop.result with
      | .ok repoStates =>
        let issue : Issue :=
          { id := opts.issueId
            title := opts.title
            description := opts.description
            projectId := opts.projectId
            status := "active"
            workspaceDir := issueDir
            repos := repoStates
            createdAt := ctx.now
            updatedAt := ctx.now }
        let s2 : WorldState :=
          { loop.state with issues := saveIssueList ctx.timeOf loop.state.issues issue }
        ⟨.ok issue, s2, loop.ops⟩
      | .error e =>
        let rb := rollbackLoop ctx.env project.repositories loop.created loop.state
        let s2 : WorldState := { rb.1 with dirs := removeUnder issueDir rb.1.dirs }
        ⟨.error e, s2, loop.ops ++ rb.2⟩

/-- The per-repository cleanup ops of `deleteIssue` when the branch-deletion
half of the `try` block runs (`gitService.ts:362-368`). -/
def branchCleanupOps (env : GitEnv) (repo : Repository) (deleteBranches : Bool)
    (branch : String) : List GitOp :=
  if deleteBranches then
    [.branchList repo.path] ++
      (if branchExists env repo.path branch then [.branchDelete repo.path branch] else [])
  else []

/-- The per-repository cleanup loop of `deleteIssue` (`gitService.ts:349-373`):
skip repositories no longer in the project; remove the worktree if it still
exists on disk; optionally delete the branch; any failure inside the `try`
is caught and the loop continues with the next repository (a failed worktree
removal skips the branch deletion of the same repository). -/
def deleteRepoLoop (env : GitEnv) (project : Project) (deleteBranches : Bool) :
    List RepoState → WorldState → WorldState × List GitOp
  | [], s => (s, [])
  | rs :: rest, s =>
    match project.repositories.find? (fun r => r.name == rs.name) with
    | none => deleteRepoLoop env project deleteBranches rest s
    | some repo =>
      if s.dirs.contains rs.worktreePath then
        if env.removeWorktreeOk repo.path rs.worktreePath then
          let s1 : WorldState := { s with dirs := removeUnder rs.worktreePath s.dirs }
          let bops := branchCleanupOps env repo deleteBranches rs.branch
          let tail := deleteRepoLoop env project deleteBranches rest s1
          (tail.1, [GitOp.worktreeRemove repo.path rs.worktreePath] ++ bops ++ tail.2)
        else
          let tail := deleteRepoLoop env project deleteBranches rest s
          (tail.1, [GitOp.worktreeRemove repo.path rs.worktreePath] ++ tail.2)
      else
        let bops := branchCleanupOps env repo deleteBranches rs.branch
        let tail := deleteRepoLoop env project deleteBranches rest s
        (tail.1, bops ++ tail.2)

/-- `IssueService.deleteIssue` (`gitService.ts:329-380`): resolve the issue
record and the project, run the best-effort per-repository cleanup, then
unconditionally remove the workspace directory and the state record. -/
def deleteIssue (ctx : Ctx) (projectId issueId : String)
    (opts : DeleteIssueOptions) (s : WorldState) : OpResult Unit :=
  match getIssueFrom s.issues issueId with
  | none => ⟨.error (.issueNotFound issueId), s, []⟩
  | some issue =>
    match ctx.loadProject projectId with
    | none => ⟨.error (.projectNotFound projectId), s, []⟩
    | some project =>
      let loop := deleteRepoLoop ctx.env project (opts.deleteBranches.getD false)
        issue.repos s
      let s1 : WorldState := { loop.1 with dirs := removeUnder issue.workspaceDir loop.1.dirs }
      let s2 : WorldState := { s1 with issues := deleteIssueList s1.issues issueId }
      ⟨.ok (), s2, loop.2⟩

/-- A directory entry as returned by `fs.readdirSync(_, {withFileTypes:
true})`. -/
structure DirEntry where
  name : String
  isDirectory : Bool
deriving Repr, DecidableEq

/-- `IssueService.findOrphanedIssues` (`gitService.ts:399-423`): list the
entries of `{workspaceRoot}/{projectId}` (`listDir _ = none` models a
nonexistent directory) and return the names of the directory entries whose
name is not an issue id currently in state. -/
def findOrphanedIssues (issues : List Issue)
    (listDir : Path → Option (List DirEntry)) (workspaceRoot : Path)
    (projectId : String) : List String :=
  match listDir (pathJoin workspaceRoot projectId) with
  | none => []
  | some entries =>
    (entries.filter
        (fun e => e.isDirectory && !((issues.map (fun i => i.id)).contains e.name))).map
      (fun e => e.name)

/-! ## Derived specification functions -/

/-- The issue directory `{workspaceRoot}/{projectId}/{issueId}` computed by
`createIssue` (`gitService.ts:219-224`, `workspaceService.ts:103-111`). -/
def issueDirFor (ctx : Ctx) (opts : CreateIssueOptions) : Path :=
  pathJoin (pathJoin ctx.workspaceRoot opts.projectId) opts.issueId

/-- The branch name used by `createIssue` (`gitService.ts:227-230`). -/
def branchFor (ctx : Ctx) (opts : CreateIssueOptions) (project : Project) : String :=
  ctx.genBranchName opts.issueId project.branchNaming

/-- The outcome of processing one repository in the creation loop: `none`
when every step succeeds, otherwise the error the loop throws for it.
Mirrors the step structure of `createLoop` (`gitService.ts:238-256`). -/
def stepErrorOf (env : GitEnv) (issueDir : Path) (branch : String)
    (r : Repository) : Option OpError :=
  match getOrgFromRemote env r.path (jsOrD r.remote "origin") with
  | none => some (.remoteParseError r.path (jsOrD r.remote "origin"))
  | some org =>
    if env.statusOk r.path then
      if env.createWorktreeOk r.path (pathJoin (pathJoin issueDir org) r.name)
          branch (jsOrD r.default_branch "main") then
        none
      else some (.gitOperationError r.path (pathJoin (pathJoin issueDir org) r.name))
    else some (.invalidRepository r.path)

/-- The worktree path `{issueDir}/{org}/{repoName}` of a repository whose
org resolution succeeds. -/
def repoWtPath (env : GitEnv) (issueDir : Path) (r : Repository) : Path :=
  pathJoin (pathJoin issueDir ((getOrgFromRemote env r.path (jsOrD r.remote "origin")).getD ""))
    r.name

/-- Extract the worktree path of a `worktreeRemove` op (a worktree-removal
attempt) from a trace entry. -/
def extractRemove : GitOp → Option Path
  | .worktreeRemove _ wt => some wt
  | _ => none

/-- The outcome of `createIssue` on its failure path (`gitService.ts:305-323`),
spelled out: the loop's error, then rollback over the recorded worktrees,
then removal of the issue directory, with the traces concatenated. -/
def createFailureOutcome (ctx : Ctx) (opts : CreateIssueOptions)
    (project : Project) (s : WorldState) (e : OpError) : OpResult Issue :=
  ⟨.error e,
    { (rollbackLoop ctx.env project.repositories
        (createLoop ctx.env (issueDirFor ctx opts) (branchFor ctx opts project)
          project.repositories
          { s with dirs := insertDir s.dirs (issueDirFor ctx opts) } []).created
        (createLoop ctx.env (issueDirFor ctx opts) (branchFor ctx opts project)
          project.repositories
          { s with dirs := insertDir s.dirs (issueDirFor ctx opts) } []).state).1 with
      dirs := removeUnder (issueDirFor ctx opts)
        (rollbackLoop ctx.env project.repositories
          (createLoop ctx.env (issueDirFor ctx opts) (branchFor ctx opts project)
            project.repositories
            { s with dirs := insertDir s.dirs (issueDirFor ctx opts) } []).created
          (createLoop ctx.env (issueDirFor ctx opts) (branchFor ctx opts project)
            project.repositories
            { s with dirs := insertDir s.dirs (issueDirFor ctx opts) } []).state).1.dirs },
    (createLoop ctx.env (issueDirFor ctx opts) (branchFor ctx opts project)
      project.repositories
      { s with dirs := insertDir s.dirs (issueDirFor ctx opts) } []).ops ++
      (rollbackLoop ctx.env project.repositories
        (createLoop ctx.env (issueDirFor ctx opts) (branchFor ctx opts project)
          project.repositories
          { s with dirs := insertDir s.dirs (issueDirFor ctx opts) } []).created
        (createLoop ctx.env (issueDirFor ctx opts) (branchFor ctx opts project)
          project.repositories
          { s with dirs := insertDir s.dirs (issueDirFor ctx opts) } []).state).2⟩

/-! ## URL shapes named by the specification

The spec describes `getOrgFromRemote` as supporting three remote-URL shapes.
The following predicates state those shapes directly from the spec's words
(plus the HTTP variant actually accepted by the code), for comparison with
the parser embedded from the source above. -/

/-- The spec's SSH URL form `ssh://git@{host}/{org}/{repo...}` with nonempty
host and org segments. -/
def SshUrlShape (url : String) : Prop :=
  ∃ host org rest, url.data = "ssh://git@".data ++ (host ++ '/' :: (org ++ '/' :: rest)) ∧
    host ≠ [] ∧ '/' ∉ host ∧ org ≠ [] ∧ '/' ∉ org

/-- The spec's SCP-like shorthand `git@{host}:{org}/{repo...}`. -/
def ScpShape (url : String) : Prop :=
  ∃ host org rest, url.data = "git@".data ++ (host ++ ':' :: (org ++ '/' :: rest)) ∧
    host ≠ [] ∧ ':' ∉ host ∧ org ≠ [] ∧ '/' ∉ org

/-- The spec's HTTPS form `https://{host}/{org}/{repo...}`. -/
def HttpsShape (url : String) : Prop :=
  ∃ host org rest, url.data = "https://".data ++ (host ++ '/' :: (org ++ '/' :: rest)) ∧
    host ≠ [] ∧ '/' ∉ host ∧ org ≠ [] ∧ '/' ∉ org

/-- The plain-HTTP variant `http://{host}/{org}/{repo...}`, which the code's
third regex (`https?://`) also accepts. -/
def HttpShape (url : String) : Prop :=
  ∃ host org rest, url.data = "http://".data ++ (host ++ '/' :: (org ++ '/' :: rest)) ∧
    host ≠ [] ∧ '/' ∉ host ∧ org ≠ [] ∧ '/' ∉ org

/-! ## Concrete fixtures

Shared concrete instances used by witness and counterexample theorems: the
spec's own scenario (project `web-app` with repositories `frontend` and
`backend` under org `acme`). -/

/-- A git oracle for the two-repository scenario in which worktree creation
fails on the second repository and every worktree removal fails. -/
def exEnvFail : GitEnv :=
  { remoteUrl := fun p _ =>
      if p = ["r1"] then some "git@github.com:acme/frontend.git"
      else if p = ["r2"] then some "https://github.com/acme/backend.git"
      else none
    statusOk := fun _ => true
    createWorktreeOk := fun rp _ _ _ => rp != ["r2"]
    removeWorktreeOk := fun _ _ => false
    branchLocalAll := fun _ => some ["feature/X"]
    lsRemoteHeads := fun _ _ => some ""
    deleteBranchOk := fun _ _ => false }

/-- The same oracle with every operation succeeding. -/
def exEnvOk : GitEnv :=
  { exEnvFail with
    createWorktreeOk := fun _ _ _ _ => true
    removeWorktreeOk := fun _ _ => true
    deleteBranchOk := fun _ _ => true }

/-- The two-repository example project. -/
def exProject : Project :=
  { id := "web-app", name := "Web App",
    repositories :=
      [{ name := "frontend", path := ["r1"] }, { name := "backend", path := ["r2"] }] }

/-- Example orchestrator context over `exEnvFail`. -/
def exCtxFail : Ctx :=
  { env := exEnvFail
    loadProject := fun pid => if pid = "web-app" then some exProject else none
    workspaceRoot := ["ws"]
    genBranchName := fun iid _ => "feature/" ++ iid
    timeOf := fun _ => 0
    now := "2026-01-01T00:00:00.000Z" }

/-- Example orchestrator context over `exEnvOk`. -/
def exCtxOk : Ctx := { exCtxFail with env := exEnvOk }

/-- An already-recorded issue for the example project. -/
def exIssueX : Issue :=
  { id := "SHOP-456", projectId := "web-app", status := "active",
    workspaceDir := ["ws", "web-app", "SHOP-456"],
    repos :=
      [{ name := "frontend", branch := "feature/SHOP-456",
         worktreePath := ["ws", "web-app", "SHOP-456", "acme", "frontend"],
         created := true, pushed := false },
       { name := "backend", branch := "feature/SHOP-456",
         worktreePath := ["ws", "web-app", "SHOP-456", "acme", "backend"],
         created := true, pushed := false }],
    createdAt := "2026-01-01T00:00:00.000Z", updatedAt := "2026-01-01T00:00:00.000Z" }

/-- A world in which `exIssueX` is fully set up on disk and in state. -/
def exWorldX : WorldState :=
  { dirs := [["ws", "web-app", "SHOP-456"],
             ["ws", "web-app", "SHOP-456", "acme", "frontend"],
             ["ws", "web-app", "SHOP-456", "acme", "backend"]],
    issues := [exIssueX] }

/-- An issue created in January (see `exTimeOf`). -/
def exIssueOld : Issue :=
  { id := "OLD-1", projectId := "web-app", status := "active",
    workspaceDir := ["ws", "web-app", "OLD-1"], repos := [],
    createdAt := "2024-01-01T00:00:00.000Z", updatedAt := "2024-01-01T00:00:00.000Z" }

/-- An issue created in June (see `exTimeOf`). -/
def exIssueNew : Issue :=
  { id := "NEW-2", projectId := "web-app", status := "active",
    workspaceDir := ["ws", "web-app", "NEW-2"], repos := [],
    createdAt := "2024-06-01T00:00:00.000Z", updatedAt := "2024-06-01T00:00:00.000Z" }

/-- The `Date` parse restricted to the two timestamps of
`exIssueOld`/`exIssueNew`: the values are exactly
`Date.parse("2024-01-01T00:00:00.000Z")` and
`Date.parse("2024-06-01T00:00:00.000Z")` in milliseconds. -/
def exTimeOf : String → Int := fun s =>
  if s = "2024-01-01T00:00:00.000Z" then 1704067200000
  else if s = "2024-06-01T00:00:00.000Z" then 1717200000000
  else 0

/-- Issue `A` of the spec's orphan-detection scenario. -/
def exIssueA : Issue :=
  { id := "A", projectId := "web-app", status := "active",
    workspaceDir := ["ws", "web-app", "A"], repos := [],
    createdAt := "2024-01-01T00:00:00.000Z", updatedAt := "2024-01-01T00:00:00.000Z" }

/-- Issue `B` of the spec's orphan-detection scenario. -/
def exIssueB : Issue :=
  { id := "B", projectId := "web-app", status := "active",
    workspaceDir := ["ws", "web-app", "B"], repos := [],
    createdAt := "2024-01-01T00:00:00.000Z", updatedAt := "2024-01-01T00:00:00.000Z" }

/-- A directory listing for the orphan scenario: the project workspace
contains subdirectories `A` and `C` and a stray file. -/
def exListDir : Path → Option (List DirEntry) := fun p =>
  if p = ["ws", "web-app"] then
    some [⟨"A", true⟩, ⟨"C", true⟩, ⟨"notes.txt", false⟩]
  else none

/-- A legacy (CLI-shaped) raw record for the normalization witness. -/
def exLegacyRaw : RawIssue :=
  { id := some "SHOP-9", project_id := some "web-app",
    workspace := some ⟨some ["ws", "web-app", "SHOP-9", "SHOP-9.code-workspace"]⟩,
    repositories := some [{ name := some "frontend", branch := some "feature/SHOP-9" }],
    created_at := some "2024-01-01T00:00:00.000Z",
    updated_at := some "2024-01-02T00:00:00.000Z" }

/-! # Theorems -/

/-- C10: `getBranchStatus` only consults the remote when the branch exists
locally, so a result with `created = false` always has `pushed = false`. -/
theorem getBranchStatus_pushed_implies_created (env : GitEnv) (repoPath : Path)
    (branchName : String)
    (h : (getBranchStatus env repoPath branchName).1 = false) :
    (getBranchStatus env repoPath branchName).2 = false := by
  have h' : branchExists env repoPath branchName = false := h
  simp [getBranchStatus, h']

/-- Witness for C10: a concrete environment in which the branch does not
exist locally. -/
theorem getBranchStatus_pushed_implies_created_witness :
    (getBranchStatus exEnvFail ["r1"] "nope").1 = false ∧
    (getBranchStatus exEnvFail ["r1"] "nope").2 = false :=
  ⟨by decide, getBranchStatus_pushed_implies_created exEnvFail ["r1"] "nope" (by decide)⟩

/-- C9: the generated workspace descriptor starts with the workspace-root
entry at path `.` with the fixed label, continues with one entry per
repository in list order (path `./{org}/{repo}` when an org is known for the
repository, `./{repo}` otherwise, display name mirroring the path), and is
independent of any pre-existing descriptor content (overwrite, not merge). -/
theorem generateWorkspace_folders_spec (existing : Option WorkspaceFileModel)
    (repos : List Repository) (repoOrgs : String → Option String) :
    (generateWorkspace existing repos repoOrgs).folders.head? =
        some ⟨".", some workspaceRootLabel⟩ ∧
    (generateWorkspace existing repos repoOrgs).folders.tail =
      repos.map (fun repo =>
        match strTruthy (repoOrgs repo.name) with
        | some org =>
          ⟨"./" ++ org ++ "/" ++ repo.name, some (org ++ "/" ++ repo.name)⟩
        | none => ⟨"./" ++ repo.name, some repo.name⟩) ∧
    generateWorkspace existing repos repoOrgs = generateWorkspace none repos repoOrgs :=
  ⟨rfl, rfl, rfl⟩

/-- C2: when an issue record already exists in state (and the project
resolves), `createIssue` returns the existing record unchanged, performs no
git operation, and leaves the world (directories and state store) exactly as
it was. -/
theorem createIssue_idempotent (ctx : Ctx) (opts : CreateIssueOptions)
    (s : WorldState) (project : Project) (existing : Issue)
    (hp : ctx.loadProject opts.projectId = some project)
    (hi : getIssueFrom s.issues opts.issueId = some existing) :
    (createIssue ctx opts s).result = .ok existing ∧
    (createIssue ctx opts s).state = s ∧
    (createIssue ctx opts s).ops = [] := by
  unfold createIssue
  rw [hp, hi]
  exact ⟨rfl, rfl, rfl⟩

/-- Witness for C2: the example world already records issue `SHOP-456`. -/
theorem createIssue_idempotent_witness :
    exCtxFail.loadProject "web-app" = some exProject ∧
    getIssueFrom exWorldX.issues "SHOP-456" = some exIssueX ∧
    (createIssue exCtxFail ⟨"web-app", "SHOP-456", none, none⟩ exWorldX).result = .ok exIssueX ∧
    (createIssue exCtxFail ⟨"web-app", "SHOP-456", none, none⟩ exWorldX).state = exWorldX ∧
    (createIssue exCtxFail ⟨"web-app", "SHOP-456", none, none⟩ exWorldX).ops = [] := by
  have main := createIssue_idempotent exCtxFail ⟨"web-app", "SHOP-456", none, none⟩
    exWorldX exProject exIssueX (by decide) (by decide)
  exact ⟨by decide, by decide, main.1, main.2.1, main.2.2⟩

/-- C7: orphan detection returns exactly the names of directory entries
directly under `{workspaceRoot}/{projectId}` that are not ids of issues in
state (files ignored); it returns `[]` when the project workspace directory
does not exist; and on the spec's concrete scenario (state `{A, B}`,
directories `{A, C}`) it returns exactly `["C"]`. -/
theorem findOrphanedIssues_spec :
    (∀ (issues : List Issue) (listDir : Path → Option (List DirEntry))
        (root : Path) (pid : String),
        listDir (pathJoin root pid) = none →
        findOrphanedIssues issues listDir root pid = []) ∧
    (∀ (issues : List Issue) (entries : List DirEntry)
        (listDir : Path → Option (List DirEntry)) (root : Path) (pid n : String),
        listDir (pathJoin root pid) = some entries →
        (n ∈ findOrphanedIssues issues listDir root pid ↔
          ∃ e ∈ entries, e.isDirectory = true ∧ e.name = n ∧
            n ∉ issues.map (fun i => i.id))) ∧
    findOrphanedIssues [exIssueA, exIssueB] exListDir ["ws"] "web-app" = ["C"] := by
  refine ⟨?_, ?_, by decide⟩
  · intro issues listDir root pid h
    unfold findOrphanedIssues
    rw [h]
  · intro issues entries listDir root pid n h
    unfold findOrphanedIssues
    rw [h]
    simp only [List.mem_map, List.mem_filter, Bool.and_eq_true, Bool.not_eq_true]
    constructor
    · rintro ⟨e, ⟨hmem, hdir, hcont⟩, hname⟩
      refine ⟨e, hmem, hdir, hname, ?_⟩
      rw [← hname]
      simpa using hcont
    · rintro ⟨e, hmem, hdir, hname, hnotin⟩
      refine ⟨e, ⟨hmem, hdir, ?_⟩, hname⟩
      rw [hname]
      simpa using hnotin

/-- Witness for C7: the hypotheses of both conditional conjuncts hold on the
concrete orphan scenario. -/
theorem findOrphanedIssues_spec_witness :
    exListDir (pathJoin ["nowhere"] "x") = none ∧
    findOrphanedIssues [] exListDir ["nowhere"] "x" = [] ∧
    exListDir (pathJoin ["ws"] "web-app") =
      some [⟨"A", true⟩, ⟨"C", true⟩, ⟨"notes.txt", false⟩] ∧
    ("C" ∈ findOrphanedIssues [exIssueA, exIssueB] exListDir ["ws"] "web-app" ↔
      ∃ e ∈ [(⟨"A", true⟩ : DirEntry), ⟨"C", true⟩, ⟨"notes.txt", false⟩],
        e.isDirectory = true ∧ e.name = "C" ∧
          "C" ∉ [exIssueA, exIssueB].map (fun i => i.id)) :=
  ⟨by decide,
   findOrphanedIssues_spec.1 [] exListDir ["nowhere"] "x" (by decide),
   by decide,
   findOrphanedIssues_spec.2.1 [exIssueA, exIssueB]
     [⟨"A", true⟩, ⟨"C", true⟩, ⟨"notes.txt", false⟩] exListDir ["ws"] "web-app" "C"
     (by decide)⟩

/-! ### Helper lemmas for the state store -/

/-- The sort comparator is transitive. -/
theorem issueLe_trans (timeOf : String → Int) : ∀ a b c : Issue,
    issueLe timeOf a b = true → issueLe timeOf b c = true →
    issueLe timeOf a c = true := by
  intro a b c
  simp only [issueLe, decide_eq_true_eq]
  omega

/-- The sort comparator is total. -/
theorem issueLe_total (timeOf : String → Int) : ∀ a b : Issue,
    (issueLe timeOf a b || issueLe timeOf b a) = true := by
  intro a b
  simp only [issueLe, Bool.or_eq_true, decide_eq_true_eq]
  omega

/-- Filtering out records with an id that does not occur leaves the list
unchanged. -/
theorem filter_ne_id_of_not_mem {issues : List Issue} {x : String}
    (h : x ∉ issues.map (fun i => i.id)) :
    issues.filter (fun i => i.id != x) = issues := by
  apply List.filter_eq_self.mpr
  intro j hj
  simp only [bne_iff_ne, ne_eq]
  intro hx
  exact h (by simpa [← hx] using List.mem_map_of_mem (fun i => i.id) hj)

/-- With duplicate-free ids, filtering out an id that occurs removes exactly
one record. -/
theorem length_filter_ne_id_of_nodup : ∀ {issues : List Issue} {x : String},
    (issues.map (fun i => i.id)).Nodup → x ∈ issues.map (fun i => i.id) →
    (issues.filter (fun i => i.id != x)).length + 1 = issues.length := by
  intro issues
  induction issues with
  | nil => intro x _ hmem; simp at hmem
  | cons i t ih =>
    intro x hnd hmem
    simp only [List.map_cons, List.nodup_cons] at hnd
    simp only [List.map_cons, List.mem_cons] at hmem
    rcases hmem with hx | hx
    · have hfi : (i.id != x) = false := by simp [hx]
      have ht : t.filter (fun j => j.id != x) = t :=
        filter_ne_id_of_not_mem (by rw [← hx] at hnd; exact hnd.1)
      simp [List.filter_cons, hfi, ht]
    · have hne : i.id ≠ x := fun hc => hnd.1 (hc ▸ hx)
      have hfi : (i.id != x) = true := by simp [hne]
      simp only [List.filter_cons, hfi, if_pos trivial, List.length_cons]
      rw [← ih hnd.2 hx]

/-- The ids of a filtered issue list are the filtered ids. -/
theorem map_id_filter_ne (issues : List Issue) (x : String) :
    (issues.filter (fun i => i.id != x)).map (fun i => i.id) =
      (issues.map (fun i => i.id)).filter (fun s => s != x) := by
  induction issues with
  | nil => rfl
  | cons i t ih =>
    by_cases h : (i.id != x) = true
    · simp [List.filter_cons, h, ih]
    · simp only [Bool.not_eq_true] at h
      simp [List.filter_cons, h, ih]

/-- C4: with duplicate-free ids, `saveIssue` replaces by id — saving an id
that occurs keeps the list size, saving a fresh id grows it by one, the new
record is in the result, and the result has no duplicate ids. -/
theorem saveIssue_replace_by_id (timeOf : String → Int) (issues : List Issue)
    (issue : Issue) (hnd : (issues.map (fun i => i.id)).Nodup) :
    (issue.id ∈ issues.map (fun i => i.id) →
      (saveIssueList timeOf issues issue).length = issues.length) ∧
    (issue.id ∉ issues.map (fun i => i.id) →
      (saveIssueList timeOf issues issue).length = issues.length + 1) ∧
    issue ∈ saveIssueList timeOf issues issue ∧
    ((saveIssueList timeOf issues issue).map (fun i => i.id)).Nodup := by
  have hperm :=
    List.mergeSort_perm ((issues.filter (fun i => i.id != issue.id)) ++ [issue])
      (issueLe timeOf)
  have hlen : (saveIssueList timeOf issues issue).length =
      (issues.filter (fun i => i.id != issue.id)).length + 1 := by
    have h := hperm.length_eq
    simp only [List.length_append, List.length_cons, List.length_nil] at h
    simp only [saveIssueList]
    exact h
  refine ⟨?_, ?_, ?_, ?_⟩
  · intro hmem
    rw [hlen, length_filter_ne_id_of_nodup hnd hmem]
  · intro hmem
    rw [hlen, filter_ne_id_of_not_mem hmem]
  · unfold saveIssueList
    rw [List.mem_mergeSort]
    simp
  · have hids : ((issues.filter (fun i => i.id != issue.id)) ++ [issue]).map
        (fun i => i.id) =
        ((issues.map (fun i => i.id)).filter (fun s => s != issue.id)) ++ [issue.id] := by
      rw [List.map_append, map_id_filter_ne]
      rfl
    have hbase : (((issues.filter (fun i => i.id != issue.id)) ++ [issue]).map
        (fun i => i.id)).Nodup := by
      rw [hids]
      refine List.Nodup.append (hnd.filter _) (List.nodup_singleton _) ?_
      intro a ha hb
      simp only [List.mem_filter, bne_iff_ne, ne_eq] at ha
      simp only [List.mem_singleton] at hb
      exact ha.2 hb
    exact ((hperm.map (fun i => i.id)).symm.nodup) hbase

/-- Witness for C4: replacing the record of id `OLD-1` keeps size two; saving
the fresh id `NEW-2` over a singleton list yields size two. -/
theorem saveIssue_replace_by_id_witness :
    (saveIssueList exTimeOf [exIssueOld, exIssueNew]
        { exIssueOld with title := some "updated" }).length = 2 ∧
    ({ exIssueOld with title := some "updated" } : Issue) ∈
      saveIssueList exTimeOf [exIssueOld, exIssueNew]
        { exIssueOld with title := some "updated" } ∧
    ((saveIssueList exTimeOf [exIssueOld, exIssueNew]
        { exIssueOld with title := some "updated" }).map (fun i => i.id)).Nodup ∧
    (saveIssueList exTimeOf [exIssueOld] exIssueNew).length = 2 := by
  have m1 := saveIssue_replace_by_id exTimeOf [exIssueOld, exIssueNew]
    { exIssueOld with title := some "updated" } (by decide)
  have m2 := saveIssue_replace_by_id exTimeOf [exIssueOld] exIssueNew (by decide)
  refine ⟨m1.1 (by decide), m1.2.2.1, m1.2.2.2, ?_⟩
  have := m2.2.1 (by decide)
  simpa using this

/-- Counterexample for C5: `StateManager.deleteIssue` writes the loaded list
filtered but *not* re-sorted, so a write by a state-store operation can leave
the persisted list unsorted: a valid persisted file holding
`[exIssueOld, exIssueNew]` (oldest first, i.e. not in descending creation
order) is written back still unsorted by `deleteIssue` of an absent id. -/
theorem deleteIssue_write_unsorted_counterexample :
    deleteIssueList [exIssueOld, exIssueNew] "ZZZ" = [exIssueOld, exIssueNew] ∧
    ¬ SortedByCreatedDesc exTimeOf [exIssueOld, exIssueNew] := by
  constructor
  · decide
  · intro h
    have := (List.pairwise_cons.mp h).1 exIssueNew (by simp)
    simp [issueLe, exIssueOld, exIssueNew, exTimeOf] at this

/-- C5 (amended): `saveIssue` always writes a list sorted by creation time
descending; `deleteIssue` does not re-sort but preserves sortedness of the
loaded list — hence every list written through the store alone stays
sorted. -/
theorem stateWrites_sorted (timeOf : String → Int) :
    (∀ issues issue, SortedByCreatedDesc timeOf (saveIssueList timeOf issues issue)) ∧
    (∀ issues issueId, SortedByCreatedDesc timeOf issues →
      SortedByCreatedDesc timeOf (deleteIssueList issues issueId)) := by
  constructor
  · intro issues issue
    exact List.sorted_mergeSort (issueLe_trans timeOf) (issueLe_total timeOf) _
  · intro issues issueId h
    exact List.Pairwise.filter _ h

/-- Witness for C5: a save produces a sorted list, and deletion from a sorted
two-element list stays sorted. -/
theorem stateWrites_sorted_witness :
    SortedByCreatedDesc exTimeOf (saveIssueList exTimeOf [exIssueOld] exIssueNew) ∧
    SortedByCreatedDesc exTimeOf [exIssueNew, exIssueOld] ∧
    SortedByCreatedDesc exTimeOf (deleteIssueList [exIssueNew, exIssueOld] "NEW-2") :=
  ⟨(stateWrites_sorted exTimeOf).1 [exIssueOld] exIssueNew,
   by decide,
   (stateWrites_sorted exTimeOf).2 [exIssueNew, exIssueOld] "NEW-2" (by decide)⟩

/-! ### Round-trip through the state store (C6) -/

/-- Normalization is the identity on canonical records whose id, status and
timestamps are nonempty strings (as every record the extension writes). -/
theorem normalizeIssue_toRaw (now : String) (i : Issue) (hid : i.id ≠ "")
    (hst : i.status ≠ "") (hc : i.createdAt ≠ "") (hu : i.updatedAt ≠ "") :
    normalizeIssue now (toRaw i) = some i := by
  obtain ⟨iid, ititle, idesc, ipid, istatus, iwd, irepos, ic, iu⟩ := i
  simp only at hid hst hc hu
  by_cases hwd : iwd = ([] : Path) <;> by_cases hpid : ipid = "" <;>
    simp [normalizeIssue, toRaw, strTruthy, pathTruthy, jsOr, jsOrD,
      hid, hst, hc, hu, hwd, hpid, Option.orElse]

/-- C6: saving a canonical issue and reloading yields the identical record;
raw records lacking a (truthy) id are discarded on read; and a legacy-shaped
record (`project_id`, nested `workspace.path`, `repositories`,
`created_at`/`updated_at`) is normalized onto the canonical shape, with
`workspaceDir = dirname (workspace.path)` and defaulted status. -/
theorem stateStore_roundtrip_normalize (now : String) :
    (∀ (timeOf : String → Int) (i : Issue), i.id ≠ "" → i.status ≠ "" →
        i.createdAt ≠ "" → i.updatedAt ≠ "" →
        loadIssuesFrom now ((saveIssueList timeOf [] i).map toRaw) = [i]) ∧
    (∀ raw : RawIssue, raw.id = none ∨ raw.id = some "" →
        normalizeIssue now raw = none) ∧
    (∀ (id pid c u : String) (wpath : Path) (rawRepos : List RawRepo),
        id ≠ "" → pid ≠ "" → c ≠ "" → u ≠ "" → wpath ≠ [] →
        normalizeIssue now
          { id := some id, project_id := some pid,
            workspace := some ⟨some wpath⟩, repositories := some rawRepos,
            created_at := some c, updated_at := some u } =
        some { id := id, projectId := pid, status := "active",
               workspaceDir := dirname wpath,
               repos := rawRepos.map (normalizeRepo (dirname wpath)),
               createdAt := c, updatedAt := u }) := by
  refine ⟨?_, ?_, ?_⟩
  · intro timeOf i hid hst hc hu
    have hsingle : saveIssueList timeOf [] i = [i] :=
      List.perm_singleton.mp (List.mergeSort_perm _ (issueLe timeOf))
    rw [hsingle]
    simp [loadIssuesFrom, normalizeIssue_toRaw now i hid hst hc hu]
  · intro raw h
    rcases h with h | h <;> simp [normalizeIssue, strTruthy, h]
  · intro id pid c u wpath rawRepos hid hpid hc hu hwp
    simp [normalizeIssue, strTruthy, pathTruthy, jsOr, jsOrD,
      hid, hpid, hc, hu, hwp, Option.orElse]

/-- Witness for C6: a concrete round trip and the concrete legacy record
`exLegacyRaw`. -/
theorem stateStore_roundtrip_normalize_witness :
    loadIssuesFrom "NOW" ((saveIssueList exTimeOf [] exIssueOld).map toRaw) =
      [exIssueOld] ∧
    normalizeIssue "NOW" { id := some "" } = none ∧
    normalizeIssue "NOW" exLegacyRaw =
      some { id := "SHOP-9", projectId := "web-app", status := "active",
             workspaceDir := ["ws", "web-app", "SHOP-9"],
             repos := [{ name := "frontend", branch := "feature/SHOP-9",
                         worktreePath := ["ws", "web-app", "SHOP-9", "frontend"],
                         created := false, pushed := false }],
             createdAt := "2024-01-01T00:00:00.000Z",
             updatedAt := "2024-01-02T00:00:00.000Z" } := by
  refine ⟨(stateStore_roundtrip_normalize "NOW").1 exTimeOf exIssueOld
      (by decide) (by decide) (by decide) (by decide),
    (stateStore_roundtrip_normalize "NOW").2.1 { id := some "" } (Or.inr rfl),
    ?_⟩
  have h := (stateStore_roundtrip_normalize "NOW").2.2 "SHOP-9" "web-app"
    "2024-01-01T00:00:00.000Z" "2024-01-02T00:00:00.000Z"
    ["ws", "web-app", "SHOP-9", "SHOP-9.code-workspace"]
    [{ name := some "frontend", branch := some "feature/SHOP-9" }]
    (by decide) (by decide) (by decide) (by decide) (by decide)
  exact h.trans (by decide)

/-! ### Deletion completeness (C3) -/

/-- The per-repository cleanup loop of `deleteIssue` never touches the
persisted issue list. -/
theorem deleteRepoLoop_issues (env : GitEnv) (project : Project) (db : Bool) :
    ∀ (rss : List RepoState) (s : WorldState),
    ((deleteRepoLoop env project db rss s).1).issues = s.issues := by
  intro rss
  induction rss with
  | nil => intro s; rfl
  | cons rs rest ih =>
    intro s
    simp only [deleteRepoLoop]
    cases hf : project.repositories.find? (fun r => r.name == rs.name) with
    | none => exact ih s
    | some repo =>
      cases hc : s.dirs.contains rs.worktreePath with
      | false => simp [hc, ih]
      | true =>
        cases hrm : env.removeWorktreeOk repo.path rs.worktreePath with
        | false => simp [hc, hrm, ih]
        | true => simp [hc, hrm, ih]

/-- C3: when the issue record and the project both exist, `deleteIssue`
returns successfully under arbitrary per-repository cleanup failures, the
state record is removed (the persisted list is exactly the old list filtered
by id), and nothing under the issue's workspace directory remains on
disk. -/
theorem deleteIssue_completes (ctx : Ctx) (projectId issueId : String)
    (opts : DeleteIssueOptions) (s : WorldState) (issue : Issue)
    (project : Project)
    (hi : getIssueFrom s.issues issueId = some issue)
    (hp : ctx.loadProject projectId = some project) :
    (deleteIssue ctx projectId issueId opts s).result = .ok () ∧
    (deleteIssue ctx projectId issueId opts s).state.issues =
      deleteIssueList s.issues issueId ∧
    (∀ i ∈ (deleteIssue ctx projectId issueId opts s).state.issues,
      i.id ≠ issueId) ∧
    (∀ d ∈ (deleteIssue ctx projectId issueId opts s).state.dirs,
      issue.workspaceDir.isPrefixOf d = false) := by
  have heq : deleteIssue ctx projectId issueId opts s =
      ⟨.ok (),
        { dirs := removeUnder issue.workspaceDir
            (deleteRepoLoop ctx.env project (opts.deleteBranches.getD false)
              issue.repos s).1.dirs,
          issues := deleteIssueList
            (deleteRepoLoop ctx.env project (opts.deleteBranches.getD false)
              issue.repos s).1.issues issueId },
        (deleteRepoLoop ctx.env project (opts.deleteBranches.getD false)
          issue.repos s).2⟩ := by
    unfold deleteIssue
    rw [hi, hp]
  rw [heq]
  refine ⟨rfl, ?_, ?_, ?_⟩
  · simp only [deleteRepoLoop_issues]
  · intro i hmem
    simp only [deleteIssueList, List.mem_filter, bne_iff_ne, ne_eq] at hmem
    exact hmem.2
  · intro d hd
    simp only [removeUnder, List.mem_filter, Bool.not_eq_true'] at hd
    exact hd.2

/-- Witness for C3: deleting `SHOP-456` in the fully-set-up world over the
environment in which every worktree removal and branch deletion throws. -/
theorem deleteIssue_completes_witness :
    getIssueFrom exWorldX.issues "SHOP-456" = some exIssueX ∧
    exCtxFail.loadProject "web-app" = some exProject ∧
    (deleteIssue exCtxFail "web-app" "SHOP-456" ⟨some true, none⟩ exWorldX).result =
      .ok () ∧
    (deleteIssue exCtxFail "web-app" "SHOP-456" ⟨some true, none⟩ exWorldX).state.issues =
      deleteIssueList exWorldX.issues "SHOP-456" ∧
    (∀ d ∈ (deleteIssue exCtxFail "web-app" "SHOP-456" ⟨some true, none⟩
        exWorldX).state.dirs, exIssueX.workspaceDir.isPrefixOf d = false) := by
  have m := deleteIssue_completes exCtxFail "web-app" "SHOP-456" ⟨some true, none⟩
    exWorldX exIssueX exProject (by decide) (by decide)
  exact ⟨by decide, by decide, m.1, m.2.1, m.2.2.2⟩

/-! ### Rollback completeness (C1) -/

/-- A list is a prefix (in the `isPrefixOf` Boolean sense) of itself followed
by anything. -/
theorem isPrefixOf_append_self (l r : List String) :
    l.isPrefixOf (l ++ r) = true := by
  induction l with
  | nil => cases r <;> rfl
  | cons a t ih => simp [List.isPrefixOf, ih]

/-- Every repository worktree path lies under the issue directory. -/
theorem repoWtPath_under (env : GitEnv) (issueDir : Path) (r : Repository) :
    ∃ l, repoWtPath env issueDir r = issueDir ++ l := by
  unfold repoWtPath pathJoin
  split
  · split
    · exact ⟨[], by simp⟩
    · exact ⟨[(getOrgFromRemote env r.path (jsOrD r.remote "origin")).getD ""], rfl⟩
  · split
    · exact ⟨[r.name], rfl⟩
    · exact ⟨[(getOrgFromRemote env r.path (jsOrD r.remote "origin")).getD "", r.name],
        by simp⟩

/-- For a repository with a nonempty name, the basename of its worktree path
is the repository name (the lookup key used by the rollback loop). -/
theorem basename_repoWtPath (env : GitEnv) (issueDir : Path) (r : Repository)
    (h : r.name ≠ "") : basename (repoWtPath env issueDir r) = r.name := by
  unfold repoWtPath basename
  rw [show pathJoin
      (pathJoin issueDir ((getOrgFromRemote env r.path (jsOrD r.remote "origin")).getD ""))
      r.name =
      pathJoin issueDir ((getOrgFromRemote env r.path (jsOrD r.remote "origin")).getD "") ++
        [r.name] from by unfold pathJoin; rw [if_neg h]]
  exact List.getLastD_concat _ _ _

/-- One successful step of the creation loop, spelled out as an equation. -/
theorem createLoop_cons (env : GitEnv) (issueDir : Path) (branch : String)
    (repo : Repository) (rest' : List Repository) (s : WorldState)
    (created : List Path) (org : String)
    (hO : getOrgFromRemote env repo.path (jsOrD repo.remote "origin") = some org)
    (hSt : env.statusOk repo.path = true)
    (hCw : env.createWorktreeOk repo.path (pathJoin (pathJoin issueDir org) repo.name)
      branch (jsOrD repo.default_branch "main") = true) :
    createLoop env issueDir branch (repo :: rest') s created =
      { result := (createLoop env issueDir branch rest'
            { s with dirs := insertDir s.dirs (pathJoin (pathJoin issueDir org) repo.name) }
            (created ++ [pathJoin (pathJoin issueDir org) repo.name])).result.map
            (fun sts =>
              ⟨repo.name, branch, pathJoin (pathJoin issueDir org) repo.name,
                (getBranchStatus env repo.path branch).1,
                (getBranchStatus env repo.path branch).2⟩ :: sts)
        state := (createLoop env issueDir branch rest'
            { s with dirs := insertDir s.dirs (pathJoin (pathJoin issueDir org) repo.name) }
            (created ++ [pathJoin (pathJoin issueDir org) repo.name])).state
        created := (createLoop env issueDir branch rest'
            { s with dirs := insertDir s.dirs (pathJoin (pathJoin issueDir org) repo.name) }
            (created ++ [pathJoin (pathJoin issueDir org) repo.name])).created
        ops := ([.getOrg repo.path (jsOrD repo.remote "origin"), .status repo.path,
                  .worktreeAdd repo.path (pathJoin (pathJoin issueDir org) repo.name)] ++
                branchStatusOps env repo.path branch) ++
            (createLoop env issueDir branch rest'
              { s with dirs := insertDir s.dirs (pathJoin (pathJoin issueDir org) repo.name) }
              (created ++ [pathJoin (pathJoin issueDir org) repo.name])).ops } := by
  simp only [createLoop, hO, hSt, hCw, eq_self_iff_true, if_true]

/-- If every repository in `done` processes cleanly and `failRepo` fails with
error `e`, the creation loop on `done ++ failRepo :: rest` returns `e`, has
recorded exactly the worktrees of `done` (in order), leaves the persisted
issues untouched, and performs no worktree removal. -/
theorem createLoop_fail (env : GitEnv) (issueDir : Path) (branch : String)
    (failRepo : Repository) (rest : List Repository) (e : OpError)
    (hfail : stepErrorOf env issueDir branch failRepo = some e) :
    ∀ (done : List Repository) (s : WorldState) (created : List Path),
    (∀ r ∈ done, stepErrorOf env issueDir branch r = none) →
    (createLoop env issueDir branch (done ++ failRepo :: rest) s created).result =
      .error e ∧
    (createLoop env issueDir branch (done ++ failRepo :: rest) s created).created =
      created ++ done.map (repoWtPath env issueDir) ∧
    (createLoop env issueDir branch (done ++ failRepo :: rest) s created).state.issues =
      s.issues ∧
    (createLoop env issueDir branch
      (done ++ failRepo :: rest) s created).ops.filterMap extractRemove = [] := by
  intro done
  induction done with
  | nil =>
    intro s created _
    simp only [List.nil_append, List.map_nil, List.append_nil]
    unfold stepErrorOf at hfail
    cases hO : getOrgFromRemote env failRepo.path (jsOrD failRepo.remote "origin") with
    | none =>
      simp only [hO] at hfail
      injection hfail with he
      subst he
      simp [createLoop, hO, extractRemove]
    | some org =>
      simp only [hO] at hfail
      by_cases hSt : env.statusOk failRepo.path
      · by_cases hCw : env.createWorktreeOk failRepo.path
            (pathJoin (pathJoin issueDir org) failRepo.name) branch
            (jsOrD failRepo.default_branch "main")
        · rw [if_pos hSt, if_pos hCw] at hfail
          exact absurd hfail (by simp)
        · rw [if_pos hSt, if_neg hCw] at hfail
          injection hfail with he
          subst he
          simp [createLoop, hO, hSt, hCw, extractRemove]
      · rw [if_neg hSt] at hfail
        injection hfail with he
        subst he
        simp [createLoop, hO, hSt, extractRemove]
  | cons r done' ih =>
    intro s created hok
    have hr := hok r (List.mem_cons_self r done')
    unfold stepErrorOf at hr
    cases hO : getOrgFromRemote env r.path (jsOrD r.remote "origin") with
    | none =>
      simp only [hO] at hr
      exact absurd hr (by simp)
    | some org =>
      simp only [hO] at hr
      by_cases hSt : env.statusOk r.path
      · by_cases hCw : env.createWorktreeOk r.path
            (pathJoin (pathJoin issueDir org) r.name) branch
            (jsOrD r.default_branch "main")
        · have ihs := ih
            { s with dirs := insertDir s.dirs (pathJoin (pathJoin issueDir org) r.name) }
            (created ++ [pathJoin (pathJoin issueDir org) r.name])
            (fun r' hr' => hok r' (List.mem_cons_of_mem _ hr'))
          rw [List.cons_append,
            createLoop_cons env issueDir branch r (done' ++ failRepo :: rest) s created
              org hO hSt hCw]
          refine ⟨?_, ?_, ?_, ?_⟩
          · simp only
            rw [ihs.1]
            rfl
          · simp only
            rw [ihs.2.1]
            simp [repoWtPath, hO]
          · exact ihs.2.2.1
          · simp only
            rw [List.filterMap_append, ihs.2.2.2]
            simp only [List.append_nil, List.filterMap_append]
            rw [show List.filterMap extractRemove
                [GitOp.getOrg r.path (jsOrD r.remote "origin"), GitOp.status r.path,
                  GitOp.worktreeAdd r.path (pathJoin (pathJoin issueDir org) r.name)] = []
              from rfl]
            rw [show (branchStatusOps env r.path branch).filterMap extractRemove = []
              from by
                unfold branchStatusOps
                cases branchExists env r.path branch <;> rfl]
            rfl
        · rw [if_pos hSt, if_neg hCw] at hr
          exact absurd hr (by simp)
      · rw [if_neg hSt] at hr
        exact absurd hr (by simp)

/-- The rollback loop attempts a removal for exactly every recorded worktree
(in order) whenever each basename lookup finds a repository, and never
touches the persisted issues. -/
theorem rollbackLoop_spec (env : GitEnv) (repositories : List Repository) :
    ∀ (wts : List Path) (s : WorldState),
    (∀ wt ∈ wts, (repositories.find? (fun r => r.name == basename wt)).isSome) →
    (rollbackLoop env repositories wts s).2.filterMap extractRemove = wts ∧
    (rollbackLoop env repositories wts s).1.issues = s.issues := by
  intro wts
  induction wts with
  | nil => intro s _; exact ⟨rfl, rfl⟩
  | cons wt rest ih =>
    intro s hall
    have hw := hall wt (List.mem_cons_self wt rest)
    obtain ⟨repo, hrepo⟩ := Option.isSome_iff_exists.mp hw
    have ihr := fun s' => ih s' (fun w hwm => hall w (List.mem_cons_of_mem _ hwm))
    by_cases hrm : env.removeWorktreeOk repo.path wt
    · simp only [rollbackLoop, hrepo, hrm, if_pos]
      constructor
      · simp only [List.filterMap_append]
        rw [(ihr _).1]
        simp [extractRemove]
      · exact (ihr _).2
    · simp only [rollbackLoop, hrepo, hrm, if_neg, Bool.false_eq_true, if_false]
      constructor
      · simp only [List.filterMap_append]
        rw [(ihr _).1]
        simp [extractRemove]
      · exact (ihr _).2

/-- On the failure path, `createIssue` equals the spelled-out failure
outcome. -/
theorem createIssue_fail_eq (ctx : Ctx) (opts : CreateIssueOptions)
    (s : WorldState) (project : Project) (e : OpError)
    (hp : ctx.loadProject opts.projectId = some project)
    (hi : getIssueFrom s.issues opts.issueId = none)
    (hres : (createLoop ctx.env (issueDirFor ctx opts) (branchFor ctx opts project)
        project.repositories
        { s with dirs := insertDir s.dirs (issueDirFor ctx opts) } []).result =
      .error e) :
    createIssue ctx opts s = createFailureOutcome ctx opts project s e := by
  unfold createIssue
  rw [hp, hi]
  unfold createFailureOutcome
  simp only [issueDirFor, branchFor] at hres ⊢
  split
  · rename_i repoStates heq
    rw [hres] at heq
    cases heq
  · rename_i e' heq
    rw [hres] at heq
    injection heq with he
    subst he
    rfl

/-- C1: if `createIssue` fails while processing repository `k` of the
project list (every earlier repository having processed cleanly), then the
call rethrows that repository's error, the rollback attempts a worktree
removal for exactly the `k − 1` worktrees created earlier (in order), no
directory under the issue directory remains on disk (in particular none of
those worktrees), and the persisted issue list is unchanged — no record is
written. -/
theorem createIssue_rollback (ctx : Ctx) (opts : CreateIssueOptions)
    (s : WorldState) (project : Project) (done : List Repository)
    (failRepo : Repository) (rest : List Repository) (e : OpError)
    (hp : ctx.loadProject opts.projectId = some project)
    (hi : getIssueFrom s.issues opts.issueId = none)
    (hrepos : project.repositories = done ++ failRepo :: rest)
    (hnames : ∀ r ∈ project.repositories, r.name ≠ "")
    (hok : ∀ r ∈ done,
      stepErrorOf ctx.env (issueDirFor ctx opts) (branchFor ctx opts project) r = none)
    (hfail : stepErrorOf ctx.env (issueDirFor ctx opts) (branchFor ctx opts project)
      failRepo = some e) :
    (createIssue ctx opts s).result = .error e ∧
    (createIssue ctx opts s).ops.filterMap extractRemove =
      done.map (repoWtPath ctx.env (issueDirFor ctx opts)) ∧
    (∀ d ∈ (createIssue ctx opts s).state.dirs,
      (issueDirFor ctx opts).isPrefixOf d = false) ∧
    (∀ wt ∈ done.map (repoWtPath ctx.env (issueDirFor ctx opts)),
      wt ∉ (createIssue ctx opts s).state.dirs) ∧
    (createIssue ctx opts s).state.issues = s.issues := by
  have hloop := createLoop_fail ctx.env (issueDirFor ctx opts)
    (branchFor ctx opts project) failRepo rest e hfail done
    { s with dirs := insertDir s.dirs (issueDirFor ctx opts) } [] hok
  rw [← hrepos] at hloop
  have heq := createIssue_fail_eq ctx opts s project e hp hi hloop.1
  have hcreated : (createLoop ctx.env (issueDirFor ctx opts)
      (branchFor ctx opts project) project.repositories
      { s with dirs := insertDir s.dirs (issueDirFor ctx opts) } []).created =
      done.map (repoWtPath ctx.env (issueDirFor ctx opts)) := by
    rw [hloop.2.1]
    simp
  have hfind : ∀ wt ∈ done.map (repoWtPath ctx.env (issueDirFor ctx opts)),
      (project.repositories.find? (fun r => r.name == basename wt)).isSome := by
    intro wt hwt
    obtain ⟨r, hrmem, rfl⟩ := List.mem_map.mp hwt
    have hnm : r.name ≠ "" := hnames r (by
      rw [hrepos]; exact List.mem_append_left _ hrmem)
    rw [basename_repoWtPath ctx.env _ r hnm]
    exact List.find?_isSome.mpr ⟨r, by rw [hrepos]; exact List.mem_append_left _ hrmem,
      by simp⟩
  have hrb := rollbackLoop_spec ctx.env project.repositories
    (createLoop ctx.env (issueDirFor ctx opts) (branchFor ctx opts project)
      project.repositories
      { s with dirs := insertDir s.dirs (issueDirFor ctx opts) } []).created
    (createLoop ctx.env (issueDirFor ctx opts) (branchFor ctx opts project)
      project.repositories
      { s with dirs := insertDir s.dirs (issueDirFor ctx opts) } []).state
    (by rw [hcreated]; exact hfind)
  rw [heq]
  refine ⟨rfl, ?_, ?_, ?_, ?_⟩
  · unfold createFailureOutcome
    simp only [List.filterMap_append]
    rw [hloop.2.2.2, hrb.1, hcreated]
    simp
  · intro d hd
    unfold createFailureOutcome at hd
    simp only [removeUnder, List.mem_filter, Bool.not_eq_true'] at hd
    exact hd.2
  · intro wt hwt
    intro hmem
    unfold createFailureOutcome at hmem
    simp only [removeUnder, List.mem_filter, Bool.not_eq_true'] at hmem
    obtain ⟨r, hrmem, rfl⟩ := List.mem_map.mp hwt
    obtain ⟨l, hl⟩ := repoWtPath_under ctx.env (issueDirFor ctx opts) r
    rw [hl] at hmem
    rw [isPrefixOf_append_self] at hmem
    cases hmem.2
  · unfold createFailureOutcome
    simp only
    rw [hrb.2, hloop.2.2.1]

/-- Witness for C1: creating `SHOP-456` over `exEnvFail` fails on the second
repository; the one worktree created for `frontend` gets a rollback attempt,
nothing under the issue directory survives, and no record is persisted. -/
theorem createIssue_rollback_witness :
    stepErrorOf exCtxFail.env (issueDirFor exCtxFail ⟨"web-app", "SHOP-456", none, none⟩)
        (branchFor exCtxFail ⟨"web-app", "SHOP-456", none, none⟩ exProject)
        { name := "backend", path := ["r2"] } =
      some (.gitOperationError ["r2"] ["ws", "web-app", "SHOP-456", "acme", "backend"]) ∧
    (createIssue exCtxFail ⟨"web-app", "SHOP-456", none, none⟩ ⟨[], []⟩).result =
      .error (.gitOperationError ["r2"] ["ws", "web-app", "SHOP-456", "acme", "backend"]) ∧
    (createIssue exCtxFail ⟨"web-app", "SHOP-456", none, none⟩ ⟨[], []⟩).ops.filterMap
        extractRemove =
      [["ws", "web-app", "SHOP-456", "acme", "frontend"]] ∧
    (∀ d ∈ (createIssue exCtxFail ⟨"web-app", "SHOP-456", none, none⟩ ⟨[], []⟩).state.dirs,
      (issueDirFor exCtxFail ⟨"web-app", "SHOP-456", none, none⟩).isPrefixOf d = false) ∧
    (createIssue exCtxFail ⟨"web-app", "SHOP-456", none, none⟩ ⟨[], []⟩).state.issues = [] := by
  have m := createIssue_rollback exCtxFail ⟨"web-app", "SHOP-456", none, none⟩ ⟨[], []⟩
    exProject [{ name := "frontend", path := ["r1"] }]
    { name := "backend", path := ["r2"] } []
    (.gitOperationError ["r2"] ["ws", "web-app", "SHOP-456", "acme", "backend"])
    (by decide) (by decide) (by decide) (by decide) (by decide) (by decide)
  exact ⟨by decide, m.1, m.2.1.trans (by decide), m.2.2.1, m.2.2.2.2⟩

/-! ### Remote URL parsing (C8) -/

/-- Stripping a literal head succeeds exactly on inputs that start with it. -/
theorem stripLit_eq_some : ∀ (p cs r : List Char),
    stripLit p cs = some r ↔ cs = p ++ r := by
  intro p
  induction p with
  | nil =>
    intro cs r
    simp [stripLit]
  | cons a ps ih =>
    intro cs r
    cases cs with
    | nil => simp [stripLit]
    | cons c cs' =>
      by_cases h : c = a
      · subst h
        simp [stripLit, ih]
      · simp [stripLit, h]

/-- The head of a nonempty `dropWhile` result falsifies the predicate. -/
theorem dropWhile_cons_head_false {α} (p : α → Bool) :
    ∀ (cs : List α) {x : α} {xs : List α}, cs.dropWhile p = x :: xs → p x = false := by
  intro cs
  induction cs with
  | nil => intro x xs h; simp [List.dropWhile] at h
  | cons a t ih =>
    intro x xs h
    by_cases hp : p a = true
    · rw [List.dropWhile_cons, if_pos hp] at h
      exact ih h
    · rw [List.dropWhile_cons, if_neg hp] at h
      injection h with h1 _
      subst h1
      simpa using hp

/-- `takeWhile`/`dropWhile` on a list split at the first predicate
failure. -/
theorem takeWhile_dropWhile_append {α} (p : α → Bool) :
    ∀ (l1 : List α) (x : α) (l2 : List α), (∀ a ∈ l1, p a = true) → p x = false →
    (l1 ++ x :: l2).takeWhile p = l1 ∧ (l1 ++ x :: l2).dropWhile p = x :: l2 := by
  intro l1
  induction l1 with
  | nil =>
    intro x l2 _ hx
    simp [List.takeWhile_cons, List.dropWhile_cons, hx]
  | cons a t ih =>
    intro x l2 hall hx
    have ha : p a = true := hall a (List.mem_cons_self a t)
    have iht := ih x l2 (fun b hb => hall b (List.mem_cons_of_mem _ hb)) hx
    simp [List.takeWhile_cons, List.dropWhile_cons, ha, iht.1, iht.2]

/-- A segment match succeeds exactly on `run ++ stop :: rest` with a nonempty
run avoiding the delimiter (the regex `[^stop]+stop`). -/
theorem matchSeg_eq_some (stop : Char) (cs run rest : List Char) :
    matchSeg stop cs = some (run, rest) ↔
    cs = run ++ stop :: rest ∧ run ≠ [] ∧ stop ∉ run := by
  constructor
  · intro h
    unfold matchSeg at h
    cases hd : cs.dropWhile (notChar stop) with
    | nil => rw [hd] at h; simp at h
    | cons y rest' =>
      simp only [hd] at h
      by_cases he : (cs.takeWhile (notChar stop)).isEmpty = true
      · rw [if_pos he] at h; simp at h
      · rw [if_neg he] at h
        injection h with h1
        injection h1 with hrun hrest
        have hy : y = stop := by
          have := dropWhile_cons_head_false (notChar stop) cs hd
          simpa [notChar] using this
        have hsplit : cs = run ++ stop :: rest := by
          rw [← List.takeWhile_append_dropWhile (notChar stop) cs, hd, hrun, hy, hrest]
        refine ⟨hsplit, ?_, ?_⟩
        · rw [← hrun]
          intro hnil
          rw [hnil] at he
          exact he rfl
        · intro hmem
          rw [← hrun] at hmem
          have := List.mem_takeWhile_imp hmem
          simp [notChar] at this
  · rintro ⟨hcs, hne, hnm⟩
    subst hcs
    obtain ⟨a, t, rfl⟩ := List.exists_cons_of_ne_nil hne
    have hall : ∀ x ∈ a :: t, notChar stop x = true := by
      intro x hx
      simp only [notChar, bne_iff_ne, ne_eq]
      intro hc
      exact hnm (hc ▸ hx)
    have hx : notChar stop stop = false := by simp [notChar]
    have ht := takeWhile_dropWhile_append (notChar stop) (a :: t) stop rest hall hx
    unfold matchSeg
    rw [ht.1, ht.2]
    rfl

/-- The shared host/org tail of the three regexes succeeds exactly on
`host ++ hostStop :: org ++ '/' :: rest` with nonempty class runs. -/
theorem matchHostOrg_isSome_iff (hostStop : Char) (r : List Char) :
    (matchHostOrg hostStop r).isSome = true ↔
    ∃ host org rest, r = host ++ hostStop :: (org ++ '/' :: rest) ∧
      host ≠ [] ∧ hostStop ∉ host ∧ org ≠ [] ∧ '/' ∉ org := by
  constructor
  · intro h
    unfold matchHostOrg at h
    cases hm1 : matchSeg hostStop r with
    | none => simp [hm1] at h
    | some p1 =>
      obtain ⟨host, r1⟩ := p1
      cases hm2 : matchSeg '/' r1 with
      | none => simp [hm1, hm2] at h
      | some p2 =>
        obtain ⟨org, r2⟩ := p2
        obtain ⟨hr, hh1, hh2⟩ := (matchSeg_eq_some hostStop r host r1).mp hm1
        obtain ⟨hr1, ho1, ho2⟩ := (matchSeg_eq_some '/' r1 org r2).mp hm2
        exact ⟨host, org, r2, by rw [hr, hr1], hh1, hh2, ho1, ho2⟩
  · rintro ⟨host, org, rest, hr, hh1, hh2, ho1, ho2⟩
    subst hr
    unfold matchHostOrg
    simp only [(matchSeg_eq_some hostStop _ host (org ++ '/' :: rest)).mpr
        ⟨rfl, hh1, hh2⟩,
      (matchSeg_eq_some '/' (org ++ '/' :: rest) org rest).mpr ⟨rfl, ho1, ho2⟩,
      Option.isSome_some]

/-- The SCP-like matcher succeeds exactly on the shape
`git@{host}:{org}/{rest}`. -/
theorem matchScp_isSome_iff (cs : List Char) :
    (matchScp cs).isSome = true ↔
    ∃ host org rest, cs = "git@".data ++ (host ++ ':' :: (org ++ '/' :: rest)) ∧
      host ≠ [] ∧ ':' ∉ host ∧ org ≠ [] ∧ '/' ∉ org := by
  constructor
  · intro h
    unfold matchScp at h
    cases hs : stripLit "git@".data cs with
    | none => simp [hs] at h
    | some r =>
      simp only [hs] at h
      obtain ⟨host, org, rest, hr, hh1, hh2, ho1, ho2⟩ :=
        (matchHostOrg_isSome_iff ':' r).mp h
      exact ⟨host, org, rest,
        by rw [(stripLit_eq_some "git@".data cs r).mp hs, hr], hh1, hh2, ho1, ho2⟩
  · rintro ⟨host, org, rest, hcs, hh1, hh2, ho1, ho2⟩
    unfold matchScp
    simp only [(stripLit_eq_some "git@".data cs _).mpr hcs]
    exact (matchHostOrg_isSome_iff ':' _).mpr ⟨host, org, rest, rfl, hh1, hh2, ho1, ho2⟩

/-- The SSH URL matcher succeeds exactly on the shape
`ssh://git@{host}/{org}/{rest}`. -/
theorem matchSshUrl_isSome_iff (cs : List Char) :
    (matchSshUrl cs).isSome = true ↔
    ∃ host org rest, cs = "ssh://git@".data ++ (host ++ '/' :: (org ++ '/' :: rest)) ∧
      host ≠ [] ∧ '/' ∉ host ∧ org ≠ [] ∧ '/' ∉ org := by
  constructor
  · intro h
    unfold matchSshUrl at h
    cases hs : stripLit "ssh://git@".data cs with
    | none => simp [hs] at h
    | some r =>
      simp only [hs] at h
      obtain ⟨host, org, rest, hr, hh1, hh2, ho1, ho2⟩ :=
        (matchHostOrg_isSome_iff '/' r).mp h
      exact ⟨host, org, rest,
        by rw [(stripLit_eq_some "ssh://git@".data cs r).mp hs, hr],
        hh1, hh2, ho1, ho2⟩
  · rintro ⟨host, org, rest, hcs, hh1, hh2, ho1, ho2⟩
    unfold matchSshUrl
    simp only [(stripLit_eq_some "ssh://git@".data cs _).mpr hcs]
    exact (matchHostOrg_isSome_iff '/' _).mpr ⟨host, org, rest, rfl, hh1, hh2, ho1, ho2⟩

/-- The HTTP(S) matcher succeeds exactly on `https://{host}/{org}/{rest}` or
`http://{host}/{org}/{rest}`. -/
theorem matchHttpUrl_isSome_iff (cs : List Char) :
    (matchHttpUrl cs).isSome = true ↔
    ((∃ host org rest, cs = "https://".data ++ (host ++ '/' :: (org ++ '/' :: rest)) ∧
        host ≠ [] ∧ '/' ∉ host ∧ org ≠ [] ∧ '/' ∉ org) ∨
      (∃ host org rest, cs = "http://".data ++ (host ++ '/' :: (org ++ '/' :: rest)) ∧
        host ≠ [] ∧ '/' ∉ host ∧ org ≠ [] ∧ '/' ∉ org)) := by
  constructor
  · intro h
    unfold matchHttpUrl at h
    cases hs : stripLit "https://".data cs with
    | some r =>
      simp only [hs, Option.orElse] at h
      obtain ⟨host, org, rest, hr, hh1, hh2, ho1, ho2⟩ :=
        (matchHostOrg_isSome_iff '/' r).mp h
      exact Or.inl ⟨host, org, rest,
        by rw [(stripLit_eq_some "https://".data cs r).mp hs, hr], hh1, hh2, ho1, ho2⟩
    | none =>
      cases h0 : stripLit "http://".data cs with
      | none => simp [hs, h0, Option.orElse] at h
      | some r =>
        simp only [hs, h0, Option.orElse] at h
        obtain ⟨host, org, rest, hr, hh1, hh2, ho1, ho2⟩ :=
          (matchHostOrg_isSome_iff '/' r).mp h
        exact Or.inr ⟨host, org, rest,
          by rw [(stripLit_eq_some "http://".data cs r).mp h0, hr], hh1, hh2, ho1, ho2⟩
  · rintro (⟨host, org, rest, hcs, hh1, hh2, ho1, ho2⟩ |
      ⟨host, org, rest, hcs, hh1, hh2, ho1, ho2⟩)
    · unfold matchHttpUrl
      simp only [(stripLit_eq_some "https://".data cs _).mpr hcs, Option.orElse]
      exact (matchHostOrg_isSome_iff '/' _).mpr
        ⟨host, org, rest, rfl, hh1, hh2, ho1, ho2⟩
    · unfold matchHttpUrl
      cases hs : stripLit "https://".data cs with
      | some r' =>
        exfalso
        have hcs' := (stripLit_eq_some "https://".data cs r').mp hs
        have e := hcs'.symm.trans hcs
        have e1 : ("https://".data ++ r')[4]? = some 's' := by
          rw [List.getElem?_append_left (by decide)]
          decide
        rw [e, List.getElem?_append_left (by decide)] at e1
        exact absurd e1 (by decide)
      | none =>
        simp only [hs, (stripLit_eq_some "http://".data cs _).mpr hcs, Option.orElse]
        exact (matchHostOrg_isSome_iff '/' _).mpr
          ⟨host, org, rest, rfl, hh1, hh2, ho1, ho2⟩

/-- The pattern cascade succeeds exactly when one of the three matchers
does. -/
theorem parseOrgChars_isSome_cascade (cs : List Char) :
    (parseOrgChars cs).isSome = true ↔
    ((matchSshUrl cs).isSome = true ∨ (matchScp cs).isSome = true ∨
      (matchHttpUrl cs).isSome = true) := by
  unfold parseOrgChars
  cases h1 : matchSshUrl cs with
  | some o => simp [h1]
  | none =>
    cases h2 : matchScp cs with
    | some o => simp [h1, h2]
    | none => simp [h1, h2]

/-- The parser succeeds exactly on the four URL shapes. -/
theorem parseOrg_isSome_iff (url : String) :
    (parseOrg url).isSome = true ↔
    (SshUrlShape url ∨ ScpShape url ∨ HttpsShape url ∨ HttpShape url) := by
  unfold parseOrg SshUrlShape ScpShape HttpsShape HttpShape
  rw [Option.isSome_map']
  rw [parseOrgChars_isSome_cascade]
  rw [matchSshUrl_isSome_iff, matchScp_isSome_iff, matchHttpUrl_isSome_iff]

/-- Counterexample for C8: the plain-HTTP URL
`http://github.com/acme/frontend.git` matches none of the three remote-URL
shapes named by the claim (SSH URL, SCP shorthand, HTTPS), yet
`getOrgFromRemote`'s parser extracts `acme` from it instead of failing with
a parse error. -/
theorem http_remote_parses_counterexample :
    parseOrg "http://github.com/acme/frontend.git" = some "acme" ∧
    ¬ SshUrlShape "http://github.com/acme/frontend.git" ∧
    ¬ ScpShape "http://github.com/acme/frontend.git" ∧
    ¬ HttpsShape "http://github.com/acme/frontend.git" := by
  refine ⟨by decide, ?_, ?_, ?_⟩
  · rintro ⟨host, org, rest, heq, -, -, -, -⟩
    have h1 : ("http://github.com/acme/frontend.git".data)[0]? = some 'h' := by decide
    rw [heq, List.getElem?_append_left (by decide)] at h1
    exact absurd h1 (by decide)
  · rintro ⟨host, org, rest, heq, -, -, -, -⟩
    have h1 : ("http://github.com/acme/frontend.git".data)[0]? = some 'h' := by decide
    rw [heq, List.getElem?_append_left (by decide)] at h1
    exact absurd h1 (by decide)
  · rintro ⟨host, org, rest, heq, -, -, -, -⟩
    have h1 : ("http://github.com/acme/frontend.git".data)[4]? = some ':' := by decide
    rw [heq, List.getElem?_append_left (by decide)] at h1
    exact absurd h1 (by decide)

/-- C8 (amended): `getOrgFromRemote`'s parser extracts the organization
segment from the SSH URL form, the SCP-like shorthand, and the HTTP(S) form
(the third regex accepts both `http://` and `https://`), e.g. `acme` from
the spec's example remotes; and it fails exactly on the URLs matching none
of these shapes. -/
theorem getOrgFromRemote_patterns :
    parseOrg "ssh://git@github.com/acme/frontend.git" = some "acme" ∧
    parseOrg "git@github.com:acme/frontend.git" = some "acme" ∧
    parseOrg "https://github.com/acme/backend.git" = some "acme" ∧
    parseOrg "http://github.com/acme/backend.git" = some "acme" ∧
    ∀ url : String, (parseOrg url).isSome = true ↔
      (SshUrlShape url ∨ ScpShape url ∨ HttpsShape url ∨ HttpShape url) :=
  ⟨by decide, by decide, by decide, by decide, parseOrg_isSome_iff⟩

end MRM
